import Mathlib

/-!
# narf/include/traits.h: the traits `acc_traits` and `tensor_traits`

`traits.h` declares two class templates and their partial specialisations.
A class template is a function from types to classes, computed by the
compiler by matching the argument against the specialisations' patterns.
The embedding makes that function explicit:

* `CppType` is the universe of template arguments, with one constructor for
  each shape the patterns in `traits.h` tell apart;
* `AccTraits` and `TensorTraits` are the member sets of an instantiated
  class, a member the chosen definition does not declare being `none`;
* `acc_traits` and `tensor_traits` map a type to the members of the class
  instantiated for it.
-/

namespace narf

/-! ## Types -/

/-- The types the templates of `traits.h` are instantiated with. -/
inductive CppType where
  /-- A plain type such as `double`: any type that is none of the three
  shapes below, so that it matches no pattern of a partial specialisation and
  is no data container. -/
  | plain (name : String)
  /-- The accumulator `boost::histogram::accumulators::weighted_sum<T>`. -/
  | weighted_sum (T : CppType)
  /-- The tensor
  `Eigen::TensorFixedSize<T, Eigen::Sizes<Indices...>, Options_, IndexType>`;
  the extents `Indices` are values of `std::ptrdiff_t`. -/
  | TensorFixedSize (T : CppType) (Indices : List Int) (Options_ : Int) (IndexType : CppType)
  /-- A data container, such as `std::vector<E>` or `ROOT::VecOps::RVec<E>`:
  a type for which `ROOT::Internal::RDF::IsDataContainer` holds, with its
  nested `value_type`; `name` is the container template. -/
  | container (name : String) (value_type : CppType)
  deriving DecidableEq, Repr

/-- Modelled from the spec: `ROOT::Internal::RDF::IsDataContainer<T>::value`,
the framework-provided check for "is this type an iterable container". It is
not declared in `traits.h`; it holds of the data containers and of no plain
type, accumulator or Eigen tensor. -/
def IsDataContainer : CppType → Bool
  | .container _ _ => true
  | _ => false

/-- The nested type `typename T::value_type` that the container specialisation
of `tensor_traits` names as the argument of its base class. -/
def element_type : CppType → Option CppType
  | .container _ E => some E
  | _ => none

/-- The type reached from `X` by taking the element type `n` times, each time
of a data container; `none` when fewer than `n` container levels surround the
innermost type. -/
def nested_element : Nat → CppType → Option CppType
  | 0, X => some X
  | n + 1, X => (element_type X).bind (nested_element n)

/-- The number of container levels around the innermost type. -/
def container_levels : CppType → Nat
  | .container _ E => container_levels E + 1
  | _ => 0

/-! ## `acc_traits` (lines 12-22) -/

/-- Members of an instantiated `acc_traits`. -/
structure AccTraits where
  is_weighted_sum : Bool
  value_type : CppType
  deriving DecidableEq, Repr

/-- The class `acc_traits<X>`: the specialisation for `weighted_sum<T>`
(lines 18-22) when `X` has that shape, else the primary template
(lines 12-16). -/
def acc_traits : CppType → AccTraits
  | .weighted_sum T => { is_weighted_sum := true, value_type := T }
  | T => { is_weighted_sum := false, value_type := T }

/-! ## `tensor_traits` (lines 24-46) -/

/-- Members of an instantiated `tensor_traits`. The primary template declares
the two flags only, so every other member is optional. `get_sizes` is the
array a call of the static member function `get_sizes()` returns. -/
structure TensorTraits where
  is_container : Bool
  is_tensor : Bool
  rank : Option Nat := none
  size : Option Int := none
  sizes : Option (List Int) := none
  value_type : Option CppType := none
  get_sizes : Option (List Int) := none
  deriving DecidableEq, Repr

/-- The primary template (lines 24-28). -/
def tensor_traits_primary : TensorTraits :=
  { is_container := false, is_tensor := false }

/-- Least value of `std::ptrdiff_t`, a 64-bit signed integer on the platforms
the library is built for. -/
def PTRDIFF_MIN : Int := -9223372036854775808

/-- Greatest value of `std::ptrdiff_t` (64 bits). -/
def PTRDIFF_MAX : Int := 9223372036854775807

/-- Whether the integer `v` is a value of `std::ptrdiff_t`. -/
def in_ptrdiff_range (v : Int) : Bool :=
  decide (PTRDIFF_MIN ≤ v) && decide (v ≤ PTRDIFF_MAX)

/-- The product `a * b` of two `ptrdiff_t` operands inside a constant
expression: its value when that is a value of `ptrdiff_t`, and `none` when it
overflows, since an overflowing signed product is no constant expression
(nothing wraps around). -/
def ptrdiff_mul (a b : Int) : Option Int :=
  if in_ptrdiff_range a && in_ptrdiff_range b && in_ptrdiff_range (a * b) then some (a * b)
  else none

/-- The initialiser `(Indices * ... * static_cast<ptrdiff_t>(1))` of `size`
(line 35), a binary right fold: `d1 * (d2 * (... * (dn * 1)))`, evaluated
from the innermost product outwards; `none` when one of the products
overflows, so that the initialiser is no constant expression and the member
is ill-formed. -/
def size_initializer : List Int → Option Int
  | [] => some 1
  | d :: ds => (size_initializer ds).bind (fun acc => ptrdiff_mul d acc)

/-- The specialisation for `Eigen::TensorFixedSize` (lines 30-41) with the
deduced template arguments `T` and `Indices`. `size` is the right fold
`(Indices * ... * 1)` in `ptrdiff_t`, absent when the fold overflows.
`get_sizes()` returns the member `sizes`. -/
def tensor_traits_fixed_size (T : CppType) (Indices : List Int) : TensorTraits :=
  let rank : Nat := Indices.length
  let size : Option Int := size_initializer Indices
  let sizes : List Int := Indices
  { is_container := false
    is_tensor := true
    rank := some rank
    size := size
    sizes := some sizes
    value_type := some T
    get_sizes := some sizes }

/-- The extents for which every product of the right fold is a value of
`ptrdiff_t`: each extent is one, and so is the product of each trailing
segment `dk * ... * dn` of the extents. -/
def fold_representable (Indices : List Int) : Bool :=
  Indices.all in_ptrdiff_range && Indices.tails.all (fun t => in_ptrdiff_range t.prod)

/-- The specialisation for data containers (lines 43-46): the class derives
from `base`, the traits of the element type, and declares its own
`is_container`, which hides the inherited one. -/
def tensor_traits_container (base : TensorTraits) : TensorTraits :=
  { base with is_container := true }

/-- The class `tensor_traits<X>`. -/
def tensor_traits : CppType → TensorTraits
  | .TensorFixedSize T Indices _ _ => tensor_traits_fixed_size T Indices
  | .container _ E => tensor_traits_container (tensor_traits E)
  | .plain _ => tensor_traits_primary
  | .weighted_sum _ => tensor_traits_primary

/-! ## Selection of the definition, step by step -/

/-- The three definitions of `tensor_traits` in `traits.h`. -/
inductive Definition where
  | primary
  | fixed_size_tensor
  | container
  deriving DecidableEq, Repr

/-- Template argument deduction against the pattern of lines 30-31: the
deduced `T`, `Indices`, `Options_` and `IndexType`. -/
def match_fixed_size_tensor : CppType → Option (CppType × List Int × Int × CppType)
  | .TensorFixedSize T Indices Options_ IndexType => some (T, Indices, Options_, IndexType)
  | _ => none

/-- The definitions that apply to `X`: each partial specialisation whose
pattern matches (for the container one, whose `enable_if_t` condition
holds), or the primary template when none does. Two entries mean an
ambiguous instantiation. -/
def applicable (X : CppType) : List Definition :=
  let specialisations :=
    (if (match_fixed_size_tensor X).isSome then [Definition.fixed_size_tensor] else []) ++
    (if IsDataContainer X then [Definition.container] else [])
  if specialisations.isEmpty then [Definition.primary] else specialisations

/-- Instantiation of `tensor_traits<X>` as the compiler performs it: select
the one applicable definition and, for the container specialisation,
instantiate the base class `tensor_traits<typename X::value_type>` first.
`fuel` bounds the number of classes instantiated; the result is `none` when
it is used up, or when the choice of the definition is ambiguous. -/
def instantiate : Nat → CppType → Option TensorTraits
  | 0, _ => none
  | fuel + 1, X =>
    match applicable X with
    | [Definition.primary] => some tensor_traits_primary
    | [Definition.fixed_size_tensor] =>
      (match_fixed_size_tensor X).map (fun d => tensor_traits_fixed_size d.1 d.2.1)
    | [Definition.container] =>
      (element_type X).bind (fun E => (instantiate fuel E).map tensor_traits_container)
    | _ => none

/-! ## Auxiliary facts -/

theorem tensor_traits_container_is_tensor (base : TensorTraits) :
    (tensor_traits_container base).is_tensor = base.is_tensor := rfl

theorem nested_element_container (n : Nat) (c : String) (E : CppType) :
    nested_element (n + 1) (CppType.container c E) = nested_element n E := rfl

theorem nested_element_succ_plain (n : Nat) (s : String) :
    nested_element (n + 1) (CppType.plain s) = none := rfl

theorem nested_element_succ_weighted_sum (n : Nat) (T : CppType) :
    nested_element (n + 1) (CppType.weighted_sum T) = none := rfl

theorem nested_element_succ_tensor (n : Nat) (T : CppType) (Indices : List Int) (O : Int)
    (I : CppType) : nested_element (n + 1) (CppType.TensorFixedSize T Indices O I) = none := rfl

/-- The traits of a type that reaches a fixed-size tensor through `n`
container levels are those of the tensor, `is_container` apart. -/
theorem tensor_traits_of_nested_tensor (n : Nat) (X T I : CppType) (Indices : List Int)
    (O : Int) (h : nested_element n X = some (CppType.TensorFixedSize T Indices O I)) :
    tensor_traits X =
      { tensor_traits_fixed_size T Indices with is_container := IsDataContainer X } := by
  induction n generalizing X with
  | zero =>
    simp only [nested_element, Option.some.injEq] at h
    subst h
    rfl
  | succ n ih =>
    cases X with
    | plain s => simp [nested_element_succ_plain] at h
    | weighted_sum U => simp [nested_element_succ_weighted_sum] at h
    | TensorFixedSize U J P K => simp [nested_element_succ_tensor] at h
    | container c E =>
      rw [nested_element_container] at h
      have := ih E h
      simp only [tensor_traits, this, tensor_traits_container, IsDataContainer]

/-- A type whose traits have `is_tensor` reaches a fixed-size tensor through
its container levels. -/
theorem nested_tensor_of_is_tensor (X : CppType) (h : (tensor_traits X).is_tensor = true) :
    ∃ T Indices O I, nested_element (container_levels X) X =
      some (CppType.TensorFixedSize T Indices O I) := by
  induction X with
  | plain s => simp [tensor_traits, tensor_traits_primary] at h
  | weighted_sum U _ => simp [tensor_traits, tensor_traits_primary] at h
  | TensorFixedSize U J P K _ _ => exact ⟨U, J, P, K, rfl⟩
  | container c E ih =>
    rw [tensor_traits, tensor_traits_container_is_tensor] at h
    obtain ⟨T, Indices, O, I, hE⟩ := ih h
    exact ⟨T, Indices, O, I, by simpa [container_levels, nested_element_container] using hE⟩

/-- Taking element types never enlarges a type. -/
theorem sizeOf_nested_element_le (n : Nat) (X Y : CppType) (h : nested_element n X = some Y) :
    sizeOf Y ≤ sizeOf X := by
  induction n generalizing X with
  | zero =>
    simp only [nested_element, Option.some.injEq] at h
    subst h
    exact le_rfl
  | succ n ih =>
    cases X with
    | plain s => simp [nested_element_succ_plain] at h
    | weighted_sum U => simp [nested_element_succ_weighted_sum] at h
    | TensorFixedSize U J P K => simp [nested_element_succ_tensor] at h
    | container c E =>
      rw [nested_element_container] at h
      have := ih E h
      simp only [CppType.container.sizeOf_spec]
      omega

/-! ## The fixed-size tensor specialisation -/

/-- C1: for every scalar type `T`, every `Options_` and `IndexType` and every
list of extents, `tensor_traits` of the fixed-size tensor has
`is_tensor = true`, `is_container = false`, `value_type = T`, `rank` the
number of extents and `sizes` the extents in their declared order, so `rank`
is the length of `sizes`. -/
theorem tensor_traits_fixed_size_tensor_members (T : CppType) (Options_ : Int)
    (IndexType : CppType) (Indices : List Int) :
    (tensor_traits (CppType.TensorFixedSize T Indices Options_ IndexType)).is_tensor = true ∧
    (tensor_traits (CppType.TensorFixedSize T Indices Options_ IndexType)).is_container = false ∧
    (tensor_traits (CppType.TensorFixedSize T Indices Options_ IndexType)).value_type = some T ∧
    (tensor_traits (CppType.TensorFixedSize T Indices Options_ IndexType)).rank =
      some Indices.length ∧
    (tensor_traits (CppType.TensorFixedSize T Indices Options_ IndexType)).sizes =
      some Indices ∧
    (tensor_traits (CppType.TensorFixedSize T Indices Options_ IndexType)).rank =
      (tensor_traits (CppType.TensorFixedSize T Indices Options_ IndexType)).sizes.map
        List.length :=
  ⟨rfl, rfl, rfl, rfl, rfl, rfl⟩

/-! ## `acc_traits` -/

/-- C2: for every type `X`, `acc_traits<X>::is_weighted_sum` is true exactly
when `X` is `weighted_sum<T>` for some `T`; then `value_type` is `T`, and
when it is false `value_type` is `X` itself. -/
theorem acc_traits_is_weighted_sum_iff (X : CppType) :
    ((acc_traits X).is_weighted_sum = true ↔ ∃ T, X = CppType.weighted_sum T) ∧
    (∀ T, X = CppType.weighted_sum T →
      (acc_traits X).is_weighted_sum = true ∧ (acc_traits X).value_type = T) ∧
    ((acc_traits X).is_weighted_sum = false → (acc_traits X).value_type = X) := by
  cases X with
  | weighted_sum U =>
    refine ⟨⟨fun _ => ⟨U, rfl⟩, fun _ => rfl⟩, ?_, ?_⟩
    · intro T hT
      cases hT
      exact ⟨rfl, rfl⟩
    · intro h
      simp [acc_traits] at h
  | plain s =>
    refine ⟨⟨fun h => ?_, fun h => ?_⟩, ?_, fun _ => rfl⟩
    · simp [acc_traits] at h
    · obtain ⟨T, hT⟩ := h
      cases hT
    · intro T hT
      cases hT
  | TensorFixedSize U J P K =>
    refine ⟨⟨fun h => ?_, fun h => ?_⟩, ?_, fun _ => rfl⟩
    · simp [acc_traits] at h
    · obtain ⟨T, hT⟩ := h
      cases hT
    · intro T hT
      cases hT
  | container c E =>
    refine ⟨⟨fun h => ?_, fun h => ?_⟩, ?_, fun _ => rfl⟩
    · simp [acc_traits] at h
    · obtain ⟨T, hT⟩ := h
      cases hT
    · intro T hT
      cases hT

/-! ## `is_tensor` -/

/-- C3: for every type `X`, `tensor_traits<X>::is_tensor` is true exactly when
`X` is a fixed-size tensor, or a data container whose element type reaches a
fixed-size tensor through some number `n` of further container levels; it is
false for a plain scalar and for a container of plain scalars. -/
theorem tensor_traits_is_tensor_iff (X : CppType) :
    ((tensor_traits X).is_tensor = true ↔
      ((∃ T Indices O I, X = CppType.TensorFixedSize T Indices O I) ∨
       (IsDataContainer X = true ∧ ∃ E n T Indices O I, element_type X = some E ∧
          nested_element n E = some (CppType.TensorFixedSize T Indices O I)))) ∧
    (∀ s, (tensor_traits (CppType.plain s)).is_tensor = false) ∧
    (∀ c s, (tensor_traits (CppType.container c (CppType.plain s))).is_tensor = false) := by
  refine ⟨⟨fun h => ?_, fun h => ?_⟩, fun _ => rfl, fun _ _ => rfl⟩
  · cases X with
    | plain s => simp [tensor_traits, tensor_traits_primary] at h
    | weighted_sum U => simp [tensor_traits, tensor_traits_primary] at h
    | TensorFixedSize U J P K => exact Or.inl ⟨U, J, P, K, rfl⟩
    | container c E =>
      rw [tensor_traits, tensor_traits_container_is_tensor] at h
      obtain ⟨T, Indices, O, I, hE⟩ := nested_tensor_of_is_tensor E h
      exact Or.inr ⟨rfl, E, container_levels E, T, Indices, O, I, rfl, hE⟩
  · rcases h with ⟨T, Indices, O, I, rfl⟩ | ⟨_, E, n, T, Indices, O, I, hE, hn⟩
    · rfl
    · cases X with
      | plain s => simp [element_type] at hE
      | weighted_sum U => simp [element_type] at hE
      | TensorFixedSize U J P K => simp [element_type] at hE
      | container c F =>
        simp only [element_type, Option.some.injEq] at hE
        subst hE
        rw [tensor_traits, tensor_traits_container_is_tensor,
          tensor_traits_of_nested_tensor n F T I Indices O hn]
        rfl

/-! ## The container specialisation -/

/-- C4: for every data container `C` with element type `E`, `tensor_traits<C>`
has `is_container = true` and `is_tensor` of the element's traits; when the
element's traits have `is_tensor`, the members `rank`, `size`, `sizes`,
`get_sizes()` and `value_type` are those of the element's traits, and
`value_type` is the scalar type `T` of the fixed-size tensor that `E` is or
contains, which is not `E`. -/
theorem tensor_traits_container_forwards (C E : CppType) (hC : IsDataContainer C = true)
    (hE : element_type C = some E) :
    (tensor_traits C).is_container = true ∧
    (tensor_traits C).is_tensor = (tensor_traits E).is_tensor ∧
    ((tensor_traits E).is_tensor = true →
      (tensor_traits C).rank = (tensor_traits E).rank ∧
      (tensor_traits C).size = (tensor_traits E).size ∧
      (tensor_traits C).sizes = (tensor_traits E).sizes ∧
      (tensor_traits C).get_sizes = (tensor_traits E).get_sizes ∧
      (tensor_traits C).value_type = (tensor_traits E).value_type ∧
      ∃ n T Indices O I, nested_element n E = some (CppType.TensorFixedSize T Indices O I) ∧
        (tensor_traits C).rank = some Indices.length ∧
        (tensor_traits C).sizes = some Indices ∧
        (tensor_traits C).value_type = some T ∧ T ≠ E) := by
  cases C with
  | plain s => simp [IsDataContainer] at hC
  | weighted_sum U => simp [IsDataContainer] at hC
  | TensorFixedSize U J P K => simp [IsDataContainer] at hC
  | container c F =>
    simp only [element_type, Option.some.injEq] at hE
    subst hE
    refine ⟨rfl, rfl, fun h => ⟨rfl, rfl, rfl, rfl, rfl, ?_⟩⟩
    obtain ⟨T, Indices, O, I, hn⟩ := nested_tensor_of_is_tensor F h
    refine ⟨container_levels F, T, Indices, O, I, hn, ?_, ?_, ?_, ?_⟩
    · rw [tensor_traits, tensor_traits_of_nested_tensor _ F T I Indices O hn]
      rfl
    · rw [tensor_traits, tensor_traits_of_nested_tensor _ F T I Indices O hn]
      rfl
    · rw [tensor_traits, tensor_traits_of_nested_tensor _ F T I Indices O hn]
      rfl
    · intro hTF
      have hle := sizeOf_nested_element_le _ F _ hn
      rw [← hTF] at hle
      simp only [CppType.TensorFixedSize.sizeOf_spec] at hle
      omega

/-- Witness for C4 at `std::vector` of a 2 x 3 tensor of `double`. -/
theorem tensor_traits_container_forwards_witness :
    IsDataContainer (CppType.container "std::vector"
      (CppType.TensorFixedSize (CppType.plain "double") [2, 3] 0 (CppType.plain "long"))) = true ∧
    element_type (CppType.container "std::vector"
      (CppType.TensorFixedSize (CppType.plain "double") [2, 3] 0 (CppType.plain "long"))) =
      some (CppType.TensorFixedSize (CppType.plain "double") [2, 3] 0 (CppType.plain "long")) ∧
    (tensor_traits (CppType.container "std::vector"
      (CppType.TensorFixedSize (CppType.plain "double") [2, 3] 0 (CppType.plain "long")))).is_container
      = true ∧
    (tensor_traits (CppType.container "std::vector"
      (CppType.TensorFixedSize (CppType.plain "double") [2, 3] 0 (CppType.plain "long")))).value_type
      = some (CppType.plain "double") ∧
    (tensor_traits (CppType.container "std::vector"
      (CppType.TensorFixedSize (CppType.plain "double") [2, 3] 0 (CppType.plain "long")))).sizes
      = some [2, 3] :=
  have h := tensor_traits_container_forwards
    (CppType.container "std::vector"
      (CppType.TensorFixedSize (CppType.plain "double") [2, 3] 0 (CppType.plain "long")))
    (CppType.TensorFixedSize (CppType.plain "double") [2, 3] 0 (CppType.plain "long")) rfl rfl
  ⟨rfl, rfl, h.1, (h.2.2 rfl).2.2.2.2.1.trans rfl, (h.2.2 rfl).2.2.1.trans rfl⟩

/-! ## Which members exist -/

/-- C5, as stated, fails: the primary template declares no `value_type`, so
`tensor_traits<double>::value_type` and
`tensor_traits<std::vector<double>>::value_type` do not exist. -/
theorem tensor_traits_value_type_missing_for_plain :
    (tensor_traits (CppType.plain "double")).value_type = none ∧
    (tensor_traits (CppType.container "std::vector" (CppType.plain "double"))).value_type
      = none :=
  ⟨rfl, rfl⟩

/-- C5, amended: `tensor_traits<X>::value_type` is declared exactly when
`is_tensor` is true. It is declared for every fixed-size tensor and for every
container that reaches one through its element types; for a plain scalar and
for a container of plain scalars the class has the two flags only. -/
theorem tensor_traits_value_type_defined_iff_is_tensor (X : CppType) :
    ((tensor_traits X).value_type.isSome = (tensor_traits X).is_tensor) ∧
    (∀ n T Indices O I, nested_element n X = some (CppType.TensorFixedSize T Indices O I) →
      (tensor_traits X).value_type = some T) ∧
    (∀ s, tensor_traits (CppType.plain s) = { is_container := false, is_tensor := false }) ∧
    (∀ c s, tensor_traits (CppType.container c (CppType.plain s)) =
      { is_container := true, is_tensor := false }) := by
  refine ⟨?_, ?_, fun _ => rfl, fun _ _ => rfl⟩
  · induction X with
    | plain s => rfl
    | weighted_sum U _ => rfl
    | TensorFixedSize U J P K _ _ => rfl
    | container c E ih => simpa [tensor_traits, tensor_traits_container] using ih
  · intro n T Indices O I hn
    rw [tensor_traits_of_nested_tensor n X T I Indices O hn]
    rfl

/-! ## `get_sizes()` -/

/-- C6: for every fixed-size tensor and every container that forwards to one
(every type whose traits have `is_tensor`), `get_sizes()` returns the member
`sizes`: both exist, with the same length and the same extent at every
index. -/
theorem tensor_traits_get_sizes_eq_sizes (X : CppType)
    (h : (tensor_traits X).is_tensor = true) :
    ∃ returned sizes, (tensor_traits X).get_sizes = some returned ∧
      (tensor_traits X).sizes = some sizes ∧ returned = sizes ∧
      returned.length = sizes.length ∧ ∀ i : Nat, returned[i]? = sizes[i]? := by
  obtain ⟨T, Indices, O, I, hn⟩ := nested_tensor_of_is_tensor X h
  refine ⟨Indices, Indices, ?_, ?_, rfl, rfl, fun _ => rfl⟩
  · rw [tensor_traits_of_nested_tensor _ X T I Indices O hn]
    rfl
  · rw [tensor_traits_of_nested_tensor _ X T I Indices O hn]
    rfl

/-- Witness for C6 at `std::vector` of a 2 x 3 tensor of `double`. -/
theorem tensor_traits_get_sizes_eq_sizes_witness :
    (tensor_traits (CppType.container "std::vector"
      (CppType.TensorFixedSize (CppType.plain "double") [2, 3] 0 (CppType.plain "long")))).is_tensor
      = true ∧
    ∃ returned sizes,
      (tensor_traits (CppType.container "std::vector"
        (CppType.TensorFixedSize (CppType.plain "double") [2, 3] 0
          (CppType.plain "long")))).get_sizes = some returned ∧
      (tensor_traits (CppType.container "std::vector"
        (CppType.TensorFixedSize (CppType.plain "double") [2, 3] 0
          (CppType.plain "long")))).sizes = some sizes ∧
      returned = sizes ∧ returned.length = sizes.length ∧ ∀ i : Nat, returned[i]? = sizes[i]? :=
  ⟨rfl, tensor_traits_get_sizes_eq_sizes _ rfl⟩

/-! ## `is_container` -/

/-- C7: for every type `X`, `tensor_traits<X>::is_container` is true exactly
when `X` itself is a data container, whatever its element type: false for
every plain scalar and every fixed-size tensor, true for a container of
tensors, of plain scalars and of containers; the container specialisation's
own member hides the one inherited from the element's traits. -/
theorem tensor_traits_is_container_iff (X : CppType) :
    ((tensor_traits X).is_container = true ↔ IsDataContainer X = true) ∧
    (∀ s, (tensor_traits (CppType.plain s)).is_container = false) ∧
    (∀ T Indices O I, (tensor_traits (CppType.TensorFixedSize T Indices O I)).is_container
      = false) ∧
    (∀ c E, (tensor_traits (CppType.container c E)).is_container = true) ∧
    (∀ c T Indices O I,
      (tensor_traits (CppType.TensorFixedSize T Indices O I)).is_container = false ∧
      (tensor_traits (CppType.container c (CppType.TensorFixedSize T Indices O I))).is_container
        = true) ∧
    (∀ c s, (tensor_traits (CppType.container c (CppType.plain s))).is_container = true) ∧
    (∀ c d E, (tensor_traits (CppType.container c (CppType.container d E))).is_container
      = true) := by
  refine ⟨?_, fun _ => rfl, fun _ _ _ _ => rfl, fun _ _ => rfl, fun _ _ _ _ _ => ⟨rfl, rfl⟩,
    fun _ _ => rfl, fun _ _ _ => rfl⟩
  cases X <;> simp [tensor_traits, tensor_traits_primary, tensor_traits_fixed_size,
    tensor_traits_container, IsDataContainer]

/-! ## `size` -/

theorem size_initializer_cons (d : Int) (ds : List Int) :
    size_initializer (d :: ds) = (size_initializer ds).bind (fun acc => ptrdiff_mul d acc) := rfl

theorem fold_representable_cons (d : Int) (ds : List Int) :
    fold_representable (d :: ds) =
      (in_ptrdiff_range d && in_ptrdiff_range (d * ds.prod) && fold_representable ds) := by
  simp only [fold_representable, List.all_cons, List.tails, List.prod_cons]
  cases in_ptrdiff_range d <;> cases in_ptrdiff_range (d * ds.prod) <;>
    cases List.all ds in_ptrdiff_range <;> rfl

theorem in_ptrdiff_range_prod_of_representable (l : List Int)
    (h : fold_representable l = true) : in_ptrdiff_range l.prod = true := by
  cases l with
  | nil => decide
  | cons d ds =>
    rw [fold_representable_cons] at h
    simp only [Bool.and_eq_true] at h
    simpa using h.1.2

/-- The fold yields the product of the extents when all its products are
representable. -/
theorem size_initializer_of_representable (l : List Int) (h : fold_representable l = true) :
    size_initializer l = some l.prod := by
  induction l with
  | nil => rfl
  | cons d ds ih =>
    rw [fold_representable_cons] at h
    simp only [Bool.and_eq_true] at h
    obtain ⟨⟨hd, hp⟩, hds⟩ := h
    have hacc := in_ptrdiff_range_prod_of_representable ds hds
    rw [size_initializer_cons, ih hds]
    simp [ptrdiff_mul, hd, hp, hacc]

/-- The fold yields a value only when all its products are representable. -/
theorem representable_of_size_initializer (l : List Int) (p : Int)
    (h : size_initializer l = some p) : fold_representable l = true := by
  induction l generalizing p with
  | nil => rfl
  | cons d ds ih =>
    rw [size_initializer_cons] at h
    cases hds : size_initializer ds with
    | none => simp [hds] at h
    | some acc =>
      have hrep := ih acc hds
      have hacc : acc = ds.prod := by
        have := size_initializer_of_representable ds hrep
        rw [hds] at this
        exact Option.some.inj this
      subst hacc
      simp only [hds, Option.some_bind, ptrdiff_mul] at h
      split at h
      · rename_i hc
        simp only [Bool.and_eq_true] at hc
        rw [fold_representable_cons]
        simp [hc.1.1, hc.2, hrep]
      · simp at h

/-- C8, as stated, fails: for the extents `<0, 2^62, 4>` an extent is 0, yet
the inner product `2^62 * (4 * 1)` of the right fold overflows `ptrdiff_t`
before the 0 is multiplied in, so `size` is ill-formed and is not 0; for
`<2^62, 4>` the product `2^64` of the extents is no value of `size`. -/
theorem tensor_traits_size_overflow :
    (0 : Int) ∈ [0, 4611686018427387904, 4] ∧
    (tensor_traits (CppType.TensorFixedSize (CppType.plain "double")
      [0, 4611686018427387904, 4] 0 (CppType.plain "long"))).size = none ∧
    (tensor_traits (CppType.TensorFixedSize (CppType.plain "double")
      [0, 4611686018427387904, 4] 0 (CppType.plain "long"))).size ≠ some 0 ∧
    (tensor_traits (CppType.TensorFixedSize (CppType.plain "double")
      [4611686018427387904, 4] 0 (CppType.plain "long"))).size ≠
      some ([4611686018427387904, 4] : List Int).prod := by
  refine ⟨by decide, by decide, by decide, by decide⟩

/-- C8, amended: for every fixed-size tensor with extents `Indices`, the
member `size` is well-formed exactly when every product of the right fold is
representable in `ptrdiff_t`. Then `size` is the product of the extents,
which is the product of the entries of `sizes`, and it is 0 whenever some
extent is 0. For no extents `size` is 1 and `sizes` is empty. -/
theorem tensor_traits_size_eq_prod_of_representable (T : CppType) (Indices : List Int)
    (O : Int) (I : CppType) :
    ((tensor_traits (CppType.TensorFixedSize T Indices O I)).size.isSome = true ↔
      fold_representable Indices = true) ∧
    (fold_representable Indices = true →
      (tensor_traits (CppType.TensorFixedSize T Indices O I)).size = some Indices.prod ∧
      (tensor_traits (CppType.TensorFixedSize T Indices O I)).size =
        (tensor_traits (CppType.TensorFixedSize T Indices O I)).sizes.map List.prod ∧
      ((0 : Int) ∈ Indices →
        (tensor_traits (CppType.TensorFixedSize T Indices O I)).size = some 0)) ∧
    ((tensor_traits (CppType.TensorFixedSize T [] O I)).size = some 1 ∧
      (tensor_traits (CppType.TensorFixedSize T [] O I)).sizes = some []) := by
  have hsize : (tensor_traits (CppType.TensorFixedSize T Indices O I)).size =
      size_initializer Indices := rfl
  refine ⟨⟨fun h => ?_, fun h => ?_⟩, fun h => ⟨?_, ?_, fun h0 => ?_⟩, ⟨rfl, rfl⟩⟩
  · rw [hsize] at h
    obtain ⟨p, hp⟩ := Option.isSome_iff_exists.mp h
    exact representable_of_size_initializer Indices p hp
  · rw [hsize, size_initializer_of_representable Indices h]
    rfl
  · rw [hsize, size_initializer_of_representable Indices h]
  · rw [hsize, size_initializer_of_representable Indices h]
    rfl
  · rw [hsize, size_initializer_of_representable Indices h, List.prod_eq_zero h0]

/-- Witness for C8 at the extents `<2, 0, 3>`: the fold is representable and
`size` is 0. -/
theorem tensor_traits_size_eq_prod_of_representable_witness :
    fold_representable [2, 0, 3] = true ∧
    (tensor_traits (CppType.TensorFixedSize (CppType.plain "double") [2, 0, 3] 0
      (CppType.plain "long"))).size = some 0 :=
  ⟨by decide,
    ((tensor_traits_size_eq_prod_of_representable (CppType.plain "double") [2, 0, 3] 0
      (CppType.plain "long")).2.1 (by decide)).2.2 (by decide)⟩

/-! ## Composing the two traits -/

/-- C9, as stated, fails: for `X = std::vector<weighted_sum<double>>`, a data
container whose element type is `weighted_sum<double>`, `tensor_traits<X>`
has no `value_type`, so `acc_traits<tensor_traits<X>::value_type>` is not
formed and does not recover `double`. -/
theorem acc_traits_of_tensor_traits_container_of_weighted_sum :
    (tensor_traits (CppType.container "std::vector"
      (CppType.weighted_sum (CppType.plain "double")))).value_type = none ∧
    (tensor_traits (CppType.container "std::vector"
      (CppType.weighted_sum (CppType.plain "double")))).value_type.map acc_traits ≠
      some { is_weighted_sum := true, value_type := CppType.plain "double" } :=
  ⟨rfl, by decide⟩

/-- C9, amended: `acc_traits` strips one outermost `weighted_sum` layer and
looks through nothing else. `acc_traits<weighted_sum<weighted_sum<T>>>` has
`value_type = weighted_sum<T>`, which is not `T`; for a fixed-size tensor or a
data container `X` with element type `weighted_sum<T>`, `acc_traits<X>` has
`is_weighted_sum = false` and `value_type = X`. For the fixed-size tensor,
and for a type that reaches such a tensor through container levels,
`acc_traits<tensor_traits<X>::value_type>` has `is_weighted_sum = true` and
`value_type = T`; for a container whose element type is `weighted_sum<T>`
itself, `tensor_traits<X>` declares no `value_type`. -/
theorem acc_traits_strips_one_layer (T : CppType) :
    (acc_traits (CppType.weighted_sum (CppType.weighted_sum T)) =
        { is_weighted_sum := true, value_type := CppType.weighted_sum T } ∧
      CppType.weighted_sum T ≠ T) ∧
    (∀ Indices O I, acc_traits (CppType.TensorFixedSize (CppType.weighted_sum T) Indices O I) =
      { is_weighted_sum := false,
        value_type := CppType.TensorFixedSize (CppType.weighted_sum T) Indices O I }) ∧
    (∀ c, acc_traits (CppType.container c (CppType.weighted_sum T)) =
      { is_weighted_sum := false,
        value_type := CppType.container c (CppType.weighted_sum T) }) ∧
    (∀ Indices O I,
      (tensor_traits (CppType.TensorFixedSize (CppType.weighted_sum T) Indices O I)).value_type.map
        acc_traits = some { is_weighted_sum := true, value_type := T }) ∧
    (∀ X n Indices O I,
      nested_element n X = some (CppType.TensorFixedSize (CppType.weighted_sum T) Indices O I) →
      (acc_traits X).is_weighted_sum = false ∧ (acc_traits X).value_type = X ∧
      (tensor_traits X).value_type.map acc_traits =
        some { is_weighted_sum := true, value_type := T }) ∧
    (∀ c, (tensor_traits (CppType.container c (CppType.weighted_sum T))).value_type = none) := by
  refine ⟨⟨rfl, fun h => ?_⟩, fun _ _ _ => rfl, fun _ => rfl, fun _ _ _ => rfl, ?_, fun _ => rfl⟩
  · have hs := congrArg sizeOf h
    simp only [CppType.weighted_sum.sizeOf_spec] at hs
    omega
  · intro X n Indices O I hn
    refine ⟨?_, ?_, ?_⟩
    · cases X with
      | weighted_sum U =>
        cases n with
        | zero => simp [nested_element] at hn
        | succ m => simp [nested_element_succ_weighted_sum] at hn
      | plain s => rfl
      | TensorFixedSize U J P K => rfl
      | container c E => rfl
    · cases X with
      | weighted_sum U =>
        cases n with
        | zero => simp [nested_element] at hn
        | succ m => simp [nested_element_succ_weighted_sum] at hn
      | plain s => rfl
      | TensorFixedSize U J P K => rfl
      | container c E => rfl
    · rw [tensor_traits_of_nested_tensor n X _ I Indices O hn]
      rfl

/-! ## Instantiation terminates with one result -/

theorem applicable_plain (s : String) : applicable (CppType.plain s) = [Definition.primary] :=
  rfl

theorem applicable_weighted_sum (T : CppType) :
    applicable (CppType.weighted_sum T) = [Definition.primary] := rfl

theorem applicable_tensor (T : CppType) (Indices : List Int) (O : Int) (I : CppType) :
    applicable (CppType.TensorFixedSize T Indices O I) = [Definition.fixed_size_tensor] := rfl

theorem applicable_container (c : String) (E : CppType) :
    applicable (CppType.container c E) = [Definition.container] := rfl

theorem applicable_singleton (X : CppType) : ∃ d, applicable X = [d] := by
  cases X with
  | plain s => exact ⟨_, applicable_plain s⟩
  | weighted_sum U => exact ⟨_, applicable_weighted_sum U⟩
  | TensorFixedSize U J P K => exact ⟨_, applicable_tensor U J P K⟩
  | container c E => exact ⟨_, applicable_container c E⟩

theorem instantiate_container (fuel : Nat) (c : String) (E : CppType) :
    instantiate (fuel + 1) (CppType.container c E) =
      (instantiate fuel E).map tensor_traits_container := by
  simp [instantiate, applicable_container, element_type]

theorem instantiate_of_levels_lt (X : CppType) (fuel : Nat) (h : container_levels X < fuel) :
    instantiate fuel X = some (tensor_traits X) := by
  induction X generalizing fuel with
  | plain s =>
    obtain ⟨k, rfl⟩ := Nat.exists_eq_succ_of_ne_zero (Nat.not_eq_zero_of_lt h)
    simp [instantiate, applicable_plain, tensor_traits]
  | weighted_sum U _ =>
    obtain ⟨k, rfl⟩ := Nat.exists_eq_succ_of_ne_zero (Nat.not_eq_zero_of_lt h)
    simp [instantiate, applicable_weighted_sum, tensor_traits]
  | TensorFixedSize U J P K _ _ =>
    obtain ⟨k, rfl⟩ := Nat.exists_eq_succ_of_ne_zero (Nat.not_eq_zero_of_lt h)
    simp [instantiate, applicable_tensor, tensor_traits, match_fixed_size_tensor]
  | container c E ih =>
    obtain ⟨k, rfl⟩ := Nat.exists_eq_succ_of_ne_zero (Nat.not_eq_zero_of_lt h)
    have hk : container_levels E < k := by
      simp only [container_levels] at h
      omega
    rw [instantiate_container, ih k hk]
    rfl

theorem instantiate_of_le_levels (X : CppType) (fuel : Nat) (h : fuel ≤ container_levels X) :
    instantiate fuel X = none := by
  induction X generalizing fuel with
  | plain s =>
    obtain rfl : fuel = 0 := by simpa [container_levels] using h
    rfl
  | weighted_sum U _ =>
    obtain rfl : fuel = 0 := by simpa [container_levels] using h
    rfl
  | TensorFixedSize U J P K _ _ =>
    obtain rfl : fuel = 0 := by simpa [container_levels] using h
    rfl
  | container c E ih =>
    cases fuel with
    | zero => rfl
    | succ k =>
      have hk : k ≤ container_levels E := by
        simp only [container_levels] at h
        omega
      rw [instantiate_container, ih k hk]
      rfl

/-- C10: `tensor_traits` is a total function of the type. For every type `X`
(containers nested finitely around a plain scalar or a fixed-size tensor),
exactly one of the three definitions applies to the type at each container
level; instantiation yields the members `tensor_traits X` once the classes of
all levels are instantiated, one per container level and one for the
innermost type, and not earlier; more fuel does not change the result. -/
theorem tensor_traits_instantiation_total (X : CppType) :
    (∀ k E, nested_element k X = some E → ∃ d, applicable E = [d]) ∧
    (∃ E, nested_element (container_levels X) X = some E ∧ IsDataContainer E = false) ∧
    instantiate (container_levels X + 1) X = some (tensor_traits X) ∧
    (∀ fuel, fuel ≤ container_levels X → instantiate fuel X = none) ∧
    (∀ fuel, container_levels X < fuel → instantiate fuel X = some (tensor_traits X)) := by
  refine ⟨fun _ E _ => applicable_singleton E, ?_,
    instantiate_of_levels_lt X _ (Nat.lt_succ_self _), instantiate_of_le_levels X,
    instantiate_of_levels_lt X⟩
  induction X with
  | plain s => exact ⟨_, rfl, rfl⟩
  | weighted_sum U _ => exact ⟨_, rfl, rfl⟩
  | TensorFixedSize U J P K _ _ => exact ⟨_, rfl, rfl⟩
  | container c E ih =>
    obtain ⟨F, hF, hF2⟩ := ih
    exact ⟨F, by simpa [container_levels, nested_element_container] using hF, hF2⟩

end narf
